import Mathlib

/-!
Verification of the flow-control core of the CyberChef recipe interpreter
(`src/core/operations/legacy/FlowControl.js`).

The JavaScript module is shallowly embedded below.  JS numbers that only ever
hold integer values are modelled as `Int`/`Nat`; a JS value that may be
`undefined` (a missing ingredient read `ings[i]`) is modelled as
`Option Ing`, with `none` standing for `undefined`.  The `-1` "not found"
sentinel of `_getLabelIndex` is modelled as `Option Nat` (`none` = `-1`).
The recursive call `recipe.execute(dish, 0, state)` performed by `runFork`
belongs to `Recipe.js`, an external collaborator, and is abstracted as an
`Executor` parameter; it receives the sub-operation list, the tranche index,
the tranche input and the shared counters, and reports either the exit
progress or the failing progress together with the child dish contents and
the (possibly mutated) shared counters.
-/

/-- Ingredient values of an operation.  They are heterogeneous in JS:
plain strings, numbers, booleans, or objects carrying a nested `string`
field (`toggleString` arguments). -/
inductive Ing where
  | str (s : String)
  | num (n : Int)
  | boolean (b : Bool)
  | objStr (s : String)
deriving DecidableEq, Repr

/-- An operation of the recipe: its name, ingredient values, disabled flag
and input/output type tags. -/
structure Operation where
  name : String
  ingValues : List Ing
  disabled : Bool
  inputType : String
  outputType : String
deriving DecidableEq, Repr

/-- The value container.  `value` is the textual projection of the current
data (what `dish.get(Dish.STRING)` returns); `dtype` the type tag last used
with `set`.  Type conversion itself is an external collaborator. -/
structure Dish where
  value : String
  dtype : String
deriving DecidableEq, Repr

/-- The execution state threaded through every flow-control primitive:
cursor, dish, operation list, jump counter, register counter, fork offset. -/
structure ExecState where
  progress : Nat
  dish : Dish
  opList : List Operation
  numJumps : Int
  numRegisters : Nat
  forkOffset : Nat
deriving DecidableEq, Repr

/-- JS `ToNumber` on an ingredient read.  `none` (undefined) becomes NaN,
modelled as `none`; booleans coerce to 0/1; integer-literal strings parse,
other strings are NaN (the flow-control ops only ever receive numbers or
undefined here). -/
def jsToNum : Option Ing → Option Int
  | some (.num n) => some n
  | some (.boolean b) => some (if b then 1 else 0)
  | some (.str s) => if s = "" then some 0 else s.toInt?
  | some (.objStr _) => none
  | none => none

/-- JS `a >= b` where `b` is an ingredient value: any comparison against
NaN (in particular against `undefined`) is false. -/
def jsGE (a : Int) (v : Option Ing) : Bool :=
  match jsToNum v with
  | some n => decide (a ≥ n)
  | none => false

/-- JS truthiness of an ingredient read; `undefined`, `""`, `0` and `false`
are falsy. -/
def jsTruthy : Option Ing → Bool
  | some (.boolean b) => b
  | some (.str s) => s != ""
  | some (.num n) => n != 0
  | some (.objStr _) => true
  | none => false

/-- JS strict equality `===` on ingredient reads: `undefined === undefined`,
same-type primitive comparison, distinct object references never equal. -/
def jsStrictEq : Option Ing → Option Ing → Bool
  | none, none => true
  | some (.str a), some (.str b) => a == b
  | some (.num a), some (.num b) => a == b
  | some (.boolean a), some (.boolean b) => a == b
  | _, _ => false

/-- JS `ToString` coercion of an ingredient read. -/
def jsToStr : Option Ing → String
  | some (.str s) => s
  | some (.num n) => toString n
  | some (.boolean true) => "true"
  | some (.boolean false) => "false"
  | some (.objStr _) => "[object Object]"
  | none => "undefined"

/-- The source text of the RegExp that JS builds from a pattern ingredient:
`new RegExp(undefined)` yields the empty pattern. -/
def jsPattern : Option Ing → String
  | none => "(?:)"
  | v => jsToStr v

/-- Placeholder for an out-of-bounds `opList[progress]` access.  The
interpreter only invokes a primitive at a valid cursor. -/
def blankOp : Operation := ⟨"", [], false, "", ""⟩

/-- The operation at the cursor, `opList[state.progress]`. -/
def curOp (state : ExecState) : Operation :=
  state.opList.getD state.progress blankOp

/-- Whether an operation is the `Label` matched by `_getLabelIndex` for a
requested name: `operation.name === "Label"` and `name === ings[0]`.
(The source performs no `disabled` check here.) -/
def isLabelMatch (name : Option Ing) (op : Operation) : Bool :=
  op.name == "Label" && jsStrictEq name (op.ingValues.get? 0)

/-- The scanning loop of `_getLabelIndex`, carrying the position `o`. -/
def getLabelIndexFrom (name : Option Ing) : List Operation → Nat → Option Nat
  | [], _ => none
  | op :: rest, o =>
    if isLabelMatch name op then some o else getLabelIndexFrom name rest (o + 1)

/-- `_getLabelIndex(name, state)`: scan the whole operation list from
position 0 and return the position of the first `Label` operation whose
first ingredient strictly equals `name`; `none` models the `-1` sentinel. -/
def getLabelIndex (name : Option Ing) (opList : List Operation) : Option Nat :=
  getLabelIndexFrom name opList 0

/-- `ings[0]` of the Jump operation at the cursor: the target label. -/
def jumpLabel (state : ExecState) : Option Ing :=
  (curOp state).ingValues.get? 0

/-- `ings[1]` of the Jump operation at the cursor: `maxJumps`. -/
def jumpMaxJumps (state : ExecState) : Option Ing :=
  (curOp state).ingValues.get? 1

/-- `runJump`: if the jump counter has reached `maxJumps`, or the label does
not resolve, return the state unchanged; otherwise set the cursor to the
resolved index and increment the jump counter. -/
def runJump (state : ExecState) : ExecState :=
  if jsGE state.numJumps (jumpMaxJumps state) then state
  else
    match getLabelIndex (jumpLabel state) state.opList with
    | none => state
    | some jmpIndex =>
      { state with progress := jmpIndex, numJumps := state.numJumps + 1 }

/-- `ings[0]` of the Conditional Jump at the cursor: the pattern. -/
def cjPattern (state : ExecState) : Option Ing :=
  (curOp state).ingValues.get? 0

/-- `ings[1]` of the Conditional Jump at the cursor: the invert flag. -/
def cjInvert (state : ExecState) : Bool :=
  jsTruthy ((curOp state).ingValues.get? 1)

/-- `ings[2]` of the Conditional Jump at the cursor: the target label. -/
def cjLabel (state : ExecState) : Option Ing :=
  (curOp state).ingValues.get? 2

/-- `ings[3]` of the Conditional Jump at the cursor: `maxJumps`. -/
def cjMaxJumps (state : ExecState) : Option Ing :=
  (curOp state).ingValues.get? 3

/-- `runCondJump`, parameterised by the external regular-expression engine
`search input pattern` (`dish.get(Dish.STRING).search(regexStr) > -1`):
same budget/resolution guard as `runJump`; then, for a non-empty pattern,
jump when `!invert && strMatch || invert && !strMatch`. -/
def runCondJump (search : String → String → Bool) (state : ExecState) :
    ExecState :=
  if jsGE state.numJumps (cjMaxJumps state) then state
  else
    match getLabelIndex (cjLabel state) state.opList with
    | none => state
    | some jmpIndex =>
      if cjPattern state ≠ some (.str "") then
        let strMatch := search state.dish.value (jsPattern (cjPattern state))
        if (!(cjInvert state) && strMatch) || (cjInvert state && !strMatch) then
          { state with progress := jmpIndex, numJumps := state.numJumps + 1 }
        else state
      else state

/-- `runReturn`: set the cursor to the operation list's length. -/
def runReturn (state : ExecState) : ExecState :=
  { state with progress := state.opList.length }

/-- `runMerge`: inert, the fork performs the merge. -/
def runMerge (state : ExecState) : ExecState := state

/-- `runComment`: inert. -/
def runComment (state : ExecState) : ExecState := state

/-- `parseInt` on the 1-2 digit group captured by `/(\\*)\$R(\d{1,2})/`. -/
def parseDigits (ds : List Char) : Nat :=
  ds.foldl (fun a c => a * 10 + (c.toNat - 48)) 0

/-- The replacement callback of `replaceRegister`: `registers` is the JS
match array (whole match at position 0, then the captured groups).  An
index outside `(numRegisters, numRegisters + registers.length)` leaves the
token verbatim; an odd run of backslashes is an escape (drop one backslash,
keep the literal token); otherwise emit the backslashes and the register
contents. -/
def rrCallback (numRegisters : Nat) (registers : List String)
    (slashes : Nat) (ds : List Char) : List Char :=
  let index := parseDigits ds + 1
  if index ≤ numRegisters ∨ index ≥ numRegisters + registers.length then
    List.replicate slashes '\\' ++ '$' :: 'R' :: ds
  else if slashes % 2 = 1 then
    List.replicate (slashes - 1) '\\' ++ '$' :: 'R' :: ds
  else
    List.replicate slashes '\\' ++ (registers.getD (index - numRegisters) "").data

/-- The global-replace scan of `str.replace(/(\\*)\$R(\d{1,2})/g, cb)`:
`pending` counts backslashes read but not yet emitted (the greedy `\\*`
group); a `$R` followed by one or two digits completes a match, anything
else flushes the pending backslashes literally. -/
def rrGo (numRegisters : Nat) (registers : List String) :
    Nat → List Char → List Char
  | pending, [] => List.replicate pending '\\'
  | pending, '\\' :: cs => rrGo numRegisters registers (pending + 1) cs
  | pending, '$' :: 'R' :: c1 :: c2 :: rest =>
    if c1.isDigit then
      if c2.isDigit then
        rrCallback numRegisters registers pending [c1, c2] ++
          rrGo numRegisters registers 0 rest
      else
        rrCallback numRegisters registers pending [c1] ++
          rrGo numRegisters registers 0 (c2 :: rest)
    else
      List.replicate pending '\\' ++ '$' :: rrGo numRegisters registers 0 ('R' :: c1 :: c2 :: rest)
  | pending, '$' :: 'R' :: c1 :: [] =>
    if c1.isDigit then rrCallback numRegisters registers pending [c1]
    else List.replicate pending '\\' ++ '$' :: rrGo numRegisters registers 0 ['R', c1]
  | pending, c :: cs => List.replicate pending '\\' ++ c :: rrGo numRegisters registers 0 cs
termination_by _ cs => cs.length
decreasing_by all_goals simp <;> omega

/-- `replaceRegister(str)` from `runRegister`: rewrite every `$Rn` token of
`str` using the freshly captured `registers` (JS match array) on top of
`numRegisters` pre-existing registers. -/
def replaceRegister (numRegisters : Nat) (registers : List String)
    (str : String) : String :=
  String.mk (rrGo numRegisters registers 0 str.data)

/-- A register-reference token: `slashes` backslashes, then `$R`, then the
digit characters `ds`. -/
def rrToken (slashes : Nat) (ds : List Char) : String :=
  String.mk (List.replicate slashes '\\' ++ '$' :: 'R' :: ds)

/-- `ds` is a digit group the token regex can capture: one or two digits. -/
def isRegNum (ds : List Char) : Prop :=
  (∃ c1, ds = [c1] ∧ c1.isDigit = true) ∨
  (∃ c1 c2, ds = [c1, c2] ∧ c1.isDigit = true ∧ c2.isDigit = true)

/-- The shared mutable counters a fork's child executions borrow. -/
structure Counters where
  numJumps : Int
  numRegisters : Nat
  forkOffset : Nat
deriving DecidableEq, Repr

deriving instance DecidableEq for Except

/-- Result of one recursive `recipe.execute(dish, 0, state)` call:
`outcome` is the exit progress (`ok`) or the progress reported by the
thrown error (`error err.progress`); `dishValue` is what the child dish
holds afterwards (at failure time for an error); `counters` the shared
counters as mutated by the child run. -/
structure SubRunResult where
  outcome : Except Nat Nat
  dishValue : String
  counters : Counters
deriving DecidableEq, Repr

/-- The recursive interpreter invocation used by `runFork`, an external
collaborator (`Recipe.js`): sub-operation list, tranche index, tranche
input, shared counters in; `SubRunResult` out. -/
def Executor : Type :=
  List Operation → Nat → String → Counters → SubRunResult

/-- The scan of JS `String.split(sep)` over the character list: `skip`
counts delimiter characters still to swallow after a match, `acc` the
current field in reverse. -/
def splitAux (sep : List Char) : List Char → List Char → Nat → List String
  | [], acc, _ => [String.mk acc.reverse]
  | _ :: cs, acc, Nat.succ skip => splitAux sep cs acc skip
  | c :: cs, acc, 0 =>
    if sep.isPrefixOf (c :: cs) then
      String.mk acc.reverse :: splitAux sep cs [] (sep.length - 1)
    else splitAux sep cs (c :: acc) 0

/-- JS `s.split(sep)`: an empty separator splits into characters. -/
def jsSplit (s sep : String) : List String :=
  if sep = "" then s.data.map (fun c => String.mk [c])
  else splitAux sep.data s.data [] 0

/-- The fork's declared input type, `opList[state.progress].inputType`. -/
def forkInputType (state : ExecState) : String := (curOp state).inputType

/-- The fork's declared output type, `opList[state.progress].outputType`. -/
def forkOutputType (state : ExecState) : String := (curOp state).outputType

/-- `ings[0]` of the Fork at the cursor: the split delimiter. -/
def forkSplitDelim (state : ExecState) : String :=
  jsToStr ((curOp state).ingValues.get? 0)

/-- `ings[1]` of the Fork at the cursor: the merge delimiter. -/
def forkMergeDelim (state : ExecState) : String :=
  jsToStr ((curOp state).ingValues.get? 1)

/-- `ings[2]` of the Fork at the cursor: the `ignoreErrors` flag. -/
def forkIgnoreErrors (state : ExecState) : Bool :=
  jsTruthy ((curOp state).ingValues.get? 2)

/-- The tranche inputs: `if (input) inputs = input.split(splitDelim)` —
a falsy (empty) input yields zero tranches. -/
def forkTranches (state : ExecState) : List String :=
  if state.dish.value ≠ "" then jsSplit state.dish.value (forkSplitDelim state)
  else []

/-- The sub-operation-list scan: every following operation up to (but
excluding) the first enabled Merge. -/
def subOpScan : List Operation → List Operation
  | [] => []
  | op :: rest =>
    if op.name == "Merge" && !op.disabled then [] else op :: subOpScan rest

/-- The fork's sub-operation list: operations strictly after the fork, up
to the first enabled Merge. -/
def forkSubOps (state : ExecState) : List Operation :=
  subOpScan (state.opList.drop (state.progress + 1))

/-- The shared counters as the first tranche sees them:
`state.forkOffset += state.progress + 1` has already been performed. -/
def forkCounters0 (state : ExecState) : Counters :=
  ⟨state.numJumps, state.numRegisters, state.forkOffset + state.progress + 1⟩

/-- The per-tranche loop of `runFork`: run the executor over each tranche
in order, appending `dishValue + mergeDelim` after each tranche (also after
an ignored failure, which resumes accounting at `err.progress + 1`); a
non-ignored failure rethrows immediately, carrying the failing progress and
the counters as mutated so far. -/
def forkLoop (exec : Executor) (subOpList : List Operation)
    (mergeDelim : String) (ignoreErrors : Bool) :
    List String → Nat → String → Nat → Counters →
    Except (Nat × Counters) (String × Nat × Counters)
  | [], _, output, progress, cs => .ok (output, progress, cs)
  | inp :: rest, i, output, _progress, cs =>
    let r := exec subOpList i inp cs
    match r.outcome with
    | .ok p =>
      forkLoop exec subOpList mergeDelim ignoreErrors rest (i + 1)
        (output ++ r.dishValue ++ mergeDelim) p r.counters
    | .error ep =>
      if ignoreErrors then
        forkLoop exec subOpList mergeDelim ignoreErrors rest (i + 1)
          (output ++ r.dishValue ++ mergeDelim) (ep + 1) r.counters
      else .error (ep, r.counters)

/-- `runFork`: split the input into tranches, bump the fork offset by
`progress + 1`, run every tranche through the executor, then write the
accumulated output into the outer dish under the declared output type and
advance the cursor by the last tranche's exit progress.  A non-ignored
tranche failure propagates (`.error`), leaving the outer dish and cursor
untouched but the shared counters already mutated. -/
def runFork (exec : Executor) (state : ExecState) :
    Except (Nat × ExecState) ExecState :=
  match forkLoop exec (forkSubOps state) (forkMergeDelim state)
      (forkIgnoreErrors state) (forkTranches state) 0 "" 0
      (forkCounters0 state) with
  | .ok (output, progress, cs) =>
    .ok { state with
      dish := ⟨output, forkOutputType state⟩,
      progress := state.progress + progress,
      numJumps := cs.numJumps, numRegisters := cs.numRegisters,
      forkOffset := cs.forkOffset }
  | .error (ep, cs) =>
    .error (ep, { state with
      numJumps := cs.numJumps, numRegisters := cs.numRegisters,
      forkOffset := cs.forkOffset })

/-- Modelled from the spec: the dispatch step of the top-level interpreter
(`Recipe.execute`, external to this excerpt) for the synchronous
flow-control primitives; `Label` and ordinary operations are inert for the
control state (ordinary operations only transform the dish, which the
self-jump recipe below does not contain). -/
def runStep (state : ExecState) : ExecState :=
  match (curOp state).name with
  | "Jump" => runJump state
  | "Return" => runReturn state
  | "Merge" => runMerge state
  | "Comment" => runComment state
  | _ => state

/-- Modelled from the spec: the top-level interpreter loop
(`Recipe.execute`), which repeatedly runs the operation at the cursor and
resumes one step past the progress the operation reports, until the cursor
reaches the end of the operation list.  `fuel` bounds the number of steps;
`none` means the budget was too small. -/
def interpRun (fuel : Nat) (state : ExecState) : Option ExecState :=
  if state.progress ≥ state.opList.length then some state
  else
    match fuel with
    | 0 => none
    | f + 1 =>
      let s := runStep state
      interpRun f { s with progress := s.progress + 1 }

/-- A `Label` marker operation. -/
def labelOp (name : String) : Operation :=
  ⟨"Label", [.str name], false, "string", "string"⟩

/-- An unconditional `Jump` operation. -/
def jumpOp (label : String) (maxJumps : Int) : Operation :=
  ⟨"Jump", [.str label, .num maxJumps], false, "string", "string"⟩

/-- A `Conditional Jump` operation. -/
def condJumpOp (pattern : String) (invert : Bool) (label : String)
    (maxJumps : Int) : Operation :=
  ⟨"Conditional Jump", [.str pattern, .boolean invert, .str label, .num maxJumps],
    false, "string", "string"⟩

/-- A `Fork` operation. -/
def mkForkOp (split merge : String) (ignore : Bool) : Operation :=
  ⟨"Fork", [.str split, .str merge, .boolean ignore], false, "string", "string"⟩

/-- The two-operation recipe with a self-targeting unconditional jump:
a label, then a jump back to it with the given budget. -/
def selfJumpRecipe (m : Nat) : List Operation :=
  [labelOp "L", jumpOp "L" (m : Int)]

/-- Execution state over `selfJumpRecipe m` at cursor `p` with `k` jumps
taken so far. -/
def selfJumpState (m p k : Nat) : ExecState :=
  ⟨p, ⟨"", "string"⟩, selfJumpRecipe m, (k : Int), 0, 0⟩

/-- The no-jump (silent degrade) condition of `runJump`: budget reached or
label unresolved. -/
def jumpNoJump (state : ExecState) : Prop :=
  jsGE state.numJumps (jumpMaxJumps state) = true ∨
  getLabelIndex (jumpLabel state) state.opList = none

/-- The no-jump condition of `runCondJump`: budget reached, label
unresolved, empty pattern, or the match condition evaluating to false. -/
def condJumpNoJump (search : String → String → Bool) (state : ExecState) :
    Prop :=
  jsGE state.numJumps (cjMaxJumps state) = true ∨
  getLabelIndex (cjLabel state) state.opList = none ∨
  cjPattern state = some (.str "") ∨
  ((!(cjInvert state) && search state.dish.value (jsPattern (cjPattern state))) ||
    (cjInvert state && !(search state.dish.value (jsPattern (cjPattern state))))) = false

/-- A single-Fork recipe state over the given input, splitting on `,` and
merging with `;`. -/
def forkState (input : String) (ignore : Bool) : ExecState :=
  ⟨0, ⟨input, "string"⟩, [mkForkOp "," ";" ignore], 0, 0, 0⟩

/-- A state whose cursor rests on a Conditional Jump targeting the label
at position 0, with pattern "x" and budget 5. -/
def cjExState : ExecState :=
  ⟨1, ⟨"hello x", "string"⟩, [labelOp "L", condJumpOp "x" false "L" 5], 0, 0, 0⟩

/-- The identity sub-pipeline: the child run leaves the tranche input
unchanged and exits at progress 0 (an empty sub-operation list). -/
def idExec : Executor := fun _ _ inp cs => ⟨.ok 0, inp, cs⟩

/-- An executor whose every tranche fails at progress 3 leaving "part" in
the child dish. -/
def failExec : Executor := fun _ _ _ cs => ⟨.error 3, "part", cs⟩

/-- An executor failing on the first tranche (progress 2, partial output
"p0") and succeeding on later tranches with exit progress 7. -/
def mixedExec : Executor := fun _ i inp cs =>
  if i = 0 then ⟨.error 2, "p0", cs⟩ else ⟨.ok 7, inp, cs⟩

/-! ## General lemmas about the jump controller -/

theorem runJump_noop (state : ExecState) (h : jumpNoJump state) :
    runJump state = state := by
  unfold runJump
  rcases h with h | h
  · simp [h]
  · rw [h]; split <;> rfl

theorem runJump_taken (state : ExecState) (j : Nat)
    (hb : jsGE state.numJumps (jumpMaxJumps state) = false)
    (hl : getLabelIndex (jumpLabel state) state.opList = some j) :
    runJump state = { state with progress := j, numJumps := state.numJumps + 1 } := by
  unfold runJump
  rw [hb, hl]
  simp

theorem runCondJump_noop (search : String → String → Bool) (state : ExecState)
    (h : condJumpNoJump search state) : runCondJump search state = state := by
  unfold runCondJump
  rcases h with h | h | h | h
  · simp [h]
  · rw [h]; split <;> rfl
  · cases hgl : getLabelIndex (cjLabel state) state.opList with
    | none => split <;> rfl
    | some j => simp [h]
  · cases hgl : getLabelIndex (cjLabel state) state.opList with
    | none => split <;> rfl
    | some j => simp [h]

theorem selfJump_labelIndex (m : Nat) :
    getLabelIndex (some (.str "L")) (selfJumpRecipe m) = some 0 := rfl

theorem selfJump_step (m k : Nat) (hk : k < m) :
    runStep (selfJumpState m 1 k) = selfJumpState m 0 (k + 1) := by
  have hb : jsGE (selfJumpState m 1 k).numJumps (jumpMaxJumps (selfJumpState m 1 k)) = false := by
    simp only [selfJumpState, jumpMaxJumps, curOp, selfJumpRecipe, jumpOp, labelOp,
      jsGE, jsToNum]
    simp only [List.getD, List.get?, Option.getD]
    rw [decide_eq_false_iff_not]
    omega
  have hl : getLabelIndex (jumpLabel (selfJumpState m 1 k))
      (selfJumpState m 1 k).opList = some 0 := rfl
  have h : runStep (selfJumpState m 1 k) = runJump (selfJumpState m 1 k) := rfl
  rw [h, runJump_taken _ 0 hb hl]
  simp [selfJumpState, ExecState.mk.injEq]

theorem selfJump_stall (m : Nat) :
    runStep (selfJumpState m 1 m) = selfJumpState m 1 m := by
  have hb : jsGE (selfJumpState m 1 m).numJumps (jumpMaxJumps (selfJumpState m 1 m)) = true := by
    simp [selfJumpState, jumpMaxJumps, curOp, selfJumpRecipe, jumpOp, labelOp,
      jsGE, jsToNum]
  have h : runStep (selfJumpState m 1 m) = runJump (selfJumpState m 1 m) := rfl
  rw [h, runJump_noop _ (Or.inl hb)]

theorem interpRun_succ (f : Nat) (state : ExecState)
    (h : state.progress < state.opList.length) :
    interpRun (f + 1) state =
      interpRun f { runStep state with progress := (runStep state).progress + 1 } := by
  rw [interpRun.eq_def]
  rw [if_neg (by omega)]

theorem interpRun_done (f : Nat) (state : ExecState)
    (h : state.opList.length ≤ state.progress) :
    interpRun f state = some state := by
  rw [interpRun.eq_def]
  rw [if_pos (by omega)]

theorem selfJump_loop (m : Nat) : ∀ d k, k + d = m →
    interpRun (d + 1) (selfJumpState m 1 k) = some (selfJumpState m 2 m) := by
  intro d
  induction d with
  | zero =>
    intro k hk
    have hkm : k = m := by omega
    subst hkm
    rw [interpRun_succ 0 _ (by simp [selfJumpState, selfJumpRecipe])]
    rw [selfJump_stall k]
    exact interpRun_done 0 _ (by simp [selfJumpState, selfJumpRecipe])
  | succ d ih =>
    intro k hk
    rw [interpRun_succ (d + 1) _ (by simp [selfJumpState, selfJumpRecipe])]
    rw [selfJump_step m k (by omega)]
    show interpRun (d + 1) (selfJumpState m 1 (k + 1)) = _
    exact ih (k + 1) (by omega)

theorem bool_cond_xor (i s : Bool) : ((!i && s) || (i && !s)) = Bool.xor s i := by
  cases i <;> cases s <;> rfl

/-- C1: the unconditional Jump leaves the state unchanged (a silent no-op)
whenever the jump counter has reached `maxJumps` or the label cannot be
resolved, and otherwise sets the cursor to the resolved label index and
increments the jump counter by exactly one; consequently, for every budget
`m ≥ 0`, the recipe with a self-targeting unconditional jump (a label
followed by a jump back to it, budget `m`) takes the jump exactly `m` times
and then falls through past the end of the recipe. -/
theorem jump_budget_and_self_jump :
    (∀ state : ExecState, jumpNoJump state → runJump state = state) ∧
    (∀ (state : ExecState) (j : Nat),
      jsGE state.numJumps (jumpMaxJumps state) = false →
      getLabelIndex (jumpLabel state) state.opList = some j →
      runJump state = { state with progress := j, numJumps := state.numJumps + 1 }) ∧
    (∀ m : Nat, ∃ s' : ExecState,
      interpRun (m + 2) (selfJumpState m 0 0) = some s' ∧
      s'.numJumps = (m : Int) ∧ s'.progress = (selfJumpRecipe m).length) := by
  refine ⟨runJump_noop, runJump_taken, ?_⟩
  intro m
  refine ⟨selfJumpState m 2 m, ?_, rfl, rfl⟩
  rw [interpRun_succ (m + 1) _ (by simp [selfJumpState, selfJumpRecipe])]
  have h0 : runStep (selfJumpState m 0 0) = selfJumpState m 0 0 := rfl
  rw [h0]
  show interpRun (m + 1) (selfJumpState m 1 0) = _
  exact selfJump_loop m m 0 (by omega)

/-- Witness for C1 at concrete inputs: a budget-0 jump is a no-op, a
budget-5 jump repositions the cursor and bumps the counter, and the
self-jump recipe with budget 1 ends with one jump taken, cursor past the
end. -/
theorem jump_budget_and_self_jump_witness :
    runJump (selfJumpState 0 1 0) = selfJumpState 0 1 0 ∧
    runJump (selfJumpState 5 1 0) =
      { selfJumpState 5 1 0 with progress := 0, numJumps := 1 } ∧
    ∃ s' : ExecState, interpRun 3 (selfJumpState 1 0 0) = some s' ∧
      s'.numJumps = (1 : Int) ∧ s'.progress = (selfJumpRecipe 1).length :=
  ⟨jump_budget_and_self_jump.1 _ (Or.inl (by decide)),
   jump_budget_and_self_jump.2.1 _ 0 (by decide) (by decide),
   jump_budget_and_self_jump.2.2 1⟩

/-- C7: when the jump budget is not exhausted and the label resolves, the
Conditional Jump with an empty pattern never jumps and returns the state
unchanged; with a non-empty pattern it repositions the cursor to the label
and increments the jump counter if and only if (match XOR invert) holds. -/
theorem cond_jump_semantics :
    ∀ (search : String → String → Bool) (state : ExecState) (j : Nat),
      jsGE state.numJumps (cjMaxJumps state) = false →
      getLabelIndex (cjLabel state) state.opList = some j →
      ((cjPattern state = some (.str "") → runCondJump search state = state) ∧
       (∀ pat : String, cjPattern state = some (.str pat) → pat ≠ "" →
        runCondJump search state =
          if Bool.xor (search state.dish.value pat) (cjInvert state) then
            { state with progress := j, numJumps := state.numJumps + 1 }
          else state)) := by
  intro search state j hb hl
  constructor
  · intro hpat
    exact runCondJump_noop search state (Or.inr (Or.inr (Or.inl hpat)))
  · intro pat hpat hne
    unfold runCondJump
    rw [hb, hl]
    simp only [Bool.false_eq_true, if_false]
    rw [hpat]
    rw [if_pos (by simp [hne])]
    have hjs : jsPattern (some (.str pat)) = pat := rfl
    simp only [hjs]
    rw [bool_cond_xor (cjInvert state) (search state.dish.value pat)]

/-- Witness for C7: on a concrete state whose Conditional Jump has pattern
"x", a searcher that reports a match makes it jump to the label. -/
theorem cond_jump_semantics_witness :
    runCondJump (fun _ _ => true) cjExState =
      { cjExState with progress := 0, numJumps := 1 } := by
  have h := (cond_jump_semantics (fun _ _ => true) cjExState 0 (by decide)
    (by decide)).2 "x" rfl (by decide)
  rw [h]
  rfl

/-- C8 counterexample: the unconditional Jump is not idempotent.  On the
self-jump recipe with budget 5, the first application takes the jump and
parks the cursor on the Label; the second application reads the Label's
ingredients (`maxJumps` is `undefined`, so the budget check never fires),
resolves the Label's own name, and jumps again, incrementing the jump
counter a second time. -/
theorem jump_not_idempotent :
    runJump (runJump (selfJumpState 5 1 0)) ≠ runJump (selfJumpState 5 1 0) := by
  decide

/-- C8 (amended): both jump operations are idempotent on every state from
which they do not take a jump (budget reached or label unresolved; for the
Conditional Jump also an empty pattern or a false match condition); a state
from which a jump is taken need not be a fixed point of a second
application. -/
theorem jump_idempotent_on_no_jump :
    ∀ (search : String → String → Bool) (state : ExecState),
      (jumpNoJump state → runJump (runJump state) = runJump state) ∧
      (condJumpNoJump search state →
        runCondJump search (runCondJump search state) = runCondJump search state) := by
  intro search state
  constructor
  · intro h
    rw [runJump_noop state h, runJump_noop state h]
  · intro h
    rw [runCondJump_noop search state h, runCondJump_noop search state h]

/-- Witness for C8 (amended) at a concrete no-jump state (budget exhausted
for the Jump; unresolvable label for the Conditional Jump). -/
theorem jump_idempotent_on_no_jump_witness :
    runJump (runJump (selfJumpState 0 1 0)) = runJump (selfJumpState 0 1 0) ∧
    runCondJump (fun _ _ => true) (runCondJump (fun _ _ => true) (selfJumpState 0 1 0)) =
      runCondJump (fun _ _ => true) (selfJumpState 0 1 0) :=
  ⟨(jump_idempotent_on_no_jump (fun _ _ => true) (selfJumpState 0 1 0)).1
      (Or.inl (by decide)),
   (jump_idempotent_on_no_jump (fun _ _ => true) (selfJumpState 0 1 0)).2
      (Or.inr (Or.inl (by decide)))⟩

theorem getLabelIndexFrom_some (name : Option Ing) :
    ∀ (ops : List Operation) (o i : Nat),
      getLabelIndexFrom name ops o = some i →
      o ≤ i ∧ i - o < ops.length ∧
      isLabelMatch name (ops.getD (i - o) blankOp) = true ∧
      ∀ j, j < i - o → isLabelMatch name (ops.getD j blankOp) = false := by
  intro ops
  induction ops with
  | nil => intro o i h; simp [getLabelIndexFrom] at h
  | cons op rest ih =>
    intro o i h
    rw [getLabelIndexFrom] at h
    by_cases hm : isLabelMatch name op = true
    · rw [if_pos hm] at h
      have hoi : o = i := by injection h
      subst hoi
      simp [hm]
    · rw [if_neg hm] at h
      obtain ⟨h1, h2, h3, h4⟩ := ih (o + 1) i h
      have hio : i - o = (i - (o + 1)) + 1 := by omega
      refine ⟨by omega, by simp [List.length_cons]; omega, ?_, ?_⟩
      · rw [hio]
        simpa using h3
      · intro j hj
        cases j with
        | zero => simpa using hm
        | succ j' =>
          have := h4 j' (by omega)
          simpa using this

theorem getLabelIndexFrom_none (name : Option Ing) :
    ∀ (ops : List Operation) (o : Nat),
      getLabelIndexFrom name ops o = none →
      ∀ j, j < ops.length → isLabelMatch name (ops.getD j blankOp) = false := by
  intro ops
  induction ops with
  | nil => intro o h j hj; simp at hj
  | cons op rest ih =>
    intro o h j hj
    rw [getLabelIndexFrom] at h
    by_cases hm : isLabelMatch name op = true
    · rw [if_pos hm] at h
      exact absurd h (by simp)
    · rw [if_neg hm] at h
      cases j with
      | zero => simpa using hm
      | succ j' => simpa using ih (o + 1) h j' (by simpa using hj)

/-- C3 (amended): the label resolver scans the entire operation list from
position 0 in order and returns the index of the first Label operation —
enabled or disabled — whose name ingredient strictly equals the requested
name; when no such operation exists it returns the not-found sentinel
(`none`, the source's `-1`) rather than raising an error. -/
theorem label_resolver_first_match :
    ∀ (name : Option Ing) (ops : List Operation),
      (∀ i : Nat, getLabelIndex name ops = some i →
        i < ops.length ∧ isLabelMatch name (ops.getD i blankOp) = true ∧
        ∀ j, j < i → isLabelMatch name (ops.getD j blankOp) = false) ∧
      (getLabelIndex name ops = none →
        ∀ j, j < ops.length → isLabelMatch name (ops.getD j blankOp) = false) := by
  intro name ops
  constructor
  · intro i h
    obtain ⟨h1, h2, h3, h4⟩ := getLabelIndexFrom_some name ops 0 i h
    refine ⟨by simpa using h2, by simpa using h3, ?_⟩
    intro j hj
    exact (by simpa using h4 j (by simpa using hj))
  · intro h
    exact getLabelIndexFrom_none name ops 0 h

/-- C3 counterexample: a disabled Label operation is returned by the label
resolver (the source's `_getLabelIndex` never consults the `disabled`
flag), contradicting the claim that disabled Labels are never returned. -/
theorem label_resolver_disabled_found :
    getLabelIndex (some (.str "x"))
      [⟨"Label", [.str "x"], true, "string", "string"⟩] = some 0 ∧
    (([⟨"Label", [.str "x"], true, "string", "string"⟩] : List Operation).getD 0
      blankOp).disabled = true := by
  constructor <;> rfl

/-- Witness for C3 (amended): the resolver finds the label "b" at index 1,
skipping the non-matching label at index 0. -/
theorem label_resolver_first_match_witness :
    isLabelMatch (some (.str "b")) ([labelOp "a", labelOp "b"].getD 1 blankOp) = true :=
  ((label_resolver_first_match (some (.str "b")) [labelOp "a", labelOp "b"]).1 1 rfl).2.1

theorem string_mk_append (a b : List Char) :
    String.mk a ++ String.mk b = String.mk (a ++ b) := rfl

theorem string_mk_data (s : String) : String.mk s.data = s := rfl

theorem string_empty_append (s : String) : "" ++ s = s := by
  cases s
  rfl

theorem rrGo_replicate (nR : Nat) (regs : List String) :
    ∀ (k p : Nat) (rest : List Char),
      rrGo nR regs p (List.replicate k '\\' ++ rest) = rrGo nR regs (p + k) rest := by
  intro k
  induction k with
  | zero => intro p rest; simp
  | succ k ih =>
    intro p rest
    rw [List.replicate_succ, List.cons_append]
    rw [show rrGo nR regs p ('\\' :: (List.replicate k '\\' ++ rest)) =
      rrGo nR regs (p + 1) (List.replicate k '\\' ++ rest) from by simp [rrGo]]
    rw [ih (p + 1) rest]
    congr 1
    omega

theorem rrGo_token (nR : Nat) (regs : List String) (p : Nat) (ds : List Char)
    (hds : isRegNum ds) :
    rrGo nR regs p ('$' :: 'R' :: ds) = rrCallback nR regs p ds := by
  rcases hds with ⟨c1, rfl, h1⟩ | ⟨c1, c2, rfl, h1, h2⟩
  · simp [rrGo, h1]
  · simp [rrGo, h1, h2]

theorem replaceRegister_token (nR : Nat) (regs : List String) (k : Nat)
    (ds : List Char) (hds : isRegNum ds) :
    replaceRegister nR regs (rrToken k ds) = String.mk (rrCallback nR regs k ds) := by
  unfold replaceRegister rrToken
  rw [show (String.mk (List.replicate k '\\' ++ '$' :: 'R' :: ds)).data =
    List.replicate k '\\' ++ '$' :: 'R' :: ds from rfl]
  rw [rrGo_replicate nR regs k 0 ('$' :: 'R' :: ds)]
  rw [Nat.zero_add]
  rw [rrGo_token nR regs k ds hds]

/-- C4: for a matched register token (a run of backslashes, `$R`, a 1-2
digit number) whose index `d + 1` refers to one of the just-captured
registers, an odd count of preceding backslashes removes one leading
backslash and keeps the literal token with no substitution; an even count
(including zero) emits the backslashes verbatim followed by the captured
value at `registers[index - numRegisters]` of the match array. -/
theorem register_substitution_escaping :
    ∀ (numRegisters : Nat) (whole : String) (groups : List String) (k : Nat)
      (ds : List Char), isRegNum ds →
      numRegisters < parseDigits ds + 1 →
      parseDigits ds + 1 ≤ numRegisters + groups.length →
      ((k % 2 = 1 →
        replaceRegister numRegisters (whole :: groups) (rrToken k ds) =
          rrToken (k - 1) ds) ∧
       (k % 2 = 0 →
        replaceRegister numRegisters (whole :: groups) (rrToken k ds) =
          String.mk (List.replicate k '\\') ++
            (whole :: groups).getD (parseDigits ds + 1 - numRegisters) "")) := by
  intro nR whole groups k ds hds hlo hhi
  rw [replaceRegister_token nR (whole :: groups) k ds hds]
  unfold rrCallback
  rw [if_neg (by simp only [List.length_cons, not_or, not_le]; omega)]
  constructor
  · intro hk
    rw [if_pos hk]
    rfl
  · intro hk
    rw [if_neg (by omega)]
    conv_rhs =>
      rw [← string_mk_data ((whole :: groups).getD (parseDigits ds + 1 - nR) "")]
    rw [string_mk_append]

/-- Witness for C4: with registers `["12","34"]` freshly captured on top of
zero existing ones, the unescaped token `$R0` becomes `12`, while the
escaped token `\$R0` loses one backslash and stays un-substituted. -/
theorem register_substitution_escaping_witness :
    replaceRegister 0 ["12-34", "12", "34"] (rrToken 0 ['0']) = "12" ∧
    replaceRegister 0 ["12-34", "12", "34"] (rrToken 1 ['0']) = rrToken 0 ['0'] := by
  constructor
  · have h := (register_substitution_escaping 0 "12-34" ["12", "34"] 0 ['0']
      (Or.inl ⟨'0', rfl, by decide⟩) (by decide) (by decide)).2 rfl
    rw [h]
    decide
  · exact (register_substitution_escaping 0 "12-34" ["12", "34"] 1 ['0']
      (Or.inl ⟨'0', rfl, by decide⟩) (by decide) (by decide)).1 rfl

/-- C5: a register token whose index `d + 1` falls outside the half-open
range `(numRegisters, numRegisters + groupCount]` is left verbatim, so the
substitution is idempotent on it; in particular `$R99` with only 2 captured
registers is emitted verbatim. -/
theorem register_substitution_out_of_range :
    (∀ (numRegisters : Nat) (whole : String) (groups : List String) (k : Nat)
       (ds : List Char), isRegNum ds →
       (parseDigits ds + 1 ≤ numRegisters ∨
        numRegisters + groups.length < parseDigits ds + 1) →
       replaceRegister numRegisters (whole :: groups) (rrToken k ds) = rrToken k ds ∧
       replaceRegister numRegisters (whole :: groups)
         (replaceRegister numRegisters (whole :: groups) (rrToken k ds)) =
         rrToken k ds) ∧
    replaceRegister 0 ["12-34", "12", "34"] (rrToken 0 ['9', '9']) =
      rrToken 0 ['9', '9'] := by
  constructor
  · intro nR whole groups k ds hds hrange
    have h1 : replaceRegister nR (whole :: groups) (rrToken k ds) = rrToken k ds := by
      rw [replaceRegister_token nR (whole :: groups) k ds hds]
      unfold rrCallback
      rw [if_pos (by simp only [List.length_cons]; omega)]
      rfl
    exact ⟨h1, by rw [h1, h1]⟩
  · rw [replaceRegister_token 0 ["12-34", "12", "34"] 0 ['9', '9']
      (Or.inr ⟨'9', '9', rfl, by decide, by decide⟩)]
    decide

/-- Witness for C5: an out-of-range token (`\\\$R99` over two captured
registers) is left fully verbatim, backslashes included. -/
theorem register_substitution_out_of_range_witness :
    replaceRegister 0 ["w", "a", "b"] (rrToken 3 ['9', '9']) = rrToken 3 ['9', '9'] :=
  ((register_substitution_out_of_range.1 0 "w" ["a", "b"] 3 ['9', '9']
    (Or.inr ⟨'9', '9', rfl, by decide, by decide⟩) (Or.inr (by decide))).1)

theorem forkLoop_cons (exec : Executor) (subs : List Operation) (d : String)
    (ig : Bool) (inp : String) (rest : List String) (i : Nat) (out : String)
    (p : Nat) (cs : Counters) :
    forkLoop exec subs d ig (inp :: rest) i out p cs =
      match (exec subs i inp cs).outcome with
      | .ok q => forkLoop exec subs d ig rest (i + 1)
          (out ++ (exec subs i inp cs).dishValue ++ d) q (exec subs i inp cs).counters
      | .error ep =>
        if ig then
          forkLoop exec subs d ig rest (i + 1)
            (out ++ (exec subs i inp cs).dishValue ++ d) (ep + 1)
            (exec subs i inp cs).counters
        else .error (ep, (exec subs i inp cs).counters) := rfl

theorem forkLoop_cons_ok {exec : Executor} {subs : List Operation} {d : String}
    {ig : Bool} {inp : String} {rest : List String} {i : Nat} {out : String}
    {p : Nat} {cs : Counters} {r : SubRunResult} {q : Nat}
    (hr : exec subs i inp cs = r) (hq : r.outcome = .ok q) :
    forkLoop exec subs d ig (inp :: rest) i out p cs =
      forkLoop exec subs d ig rest (i + 1) (out ++ r.dishValue ++ d) q r.counters := by
  rw [forkLoop_cons, hr, hq]

theorem forkLoop_cons_err_ignore {exec : Executor} {subs : List Operation}
    {d : String} {inp : String} {rest : List String} {i : Nat} {out : String}
    {p : Nat} {cs : Counters} {r : SubRunResult} {ep : Nat}
    (hr : exec subs i inp cs = r) (hq : r.outcome = .error ep) :
    forkLoop exec subs d true (inp :: rest) i out p cs =
      forkLoop exec subs d true rest (i + 1) (out ++ r.dishValue ++ d) (ep + 1)
        r.counters := by
  rw [forkLoop_cons, hr, hq]
  rfl

theorem forkLoop_cons_err_throw {exec : Executor} {subs : List Operation}
    {d : String} {inp : String} {rest : List String} {i : Nat} {out : String}
    {p : Nat} {cs : Counters} {r : SubRunResult} {ep : Nat}
    (hr : exec subs i inp cs = r) (hq : r.outcome = .error ep) :
    forkLoop exec subs d false (inp :: rest) i out p cs = .error (ep, r.counters) := by
  rw [forkLoop_cons, hr, hq]
  rfl

theorem runFork_eq (exec : Executor) (state : ExecState) :
    runFork exec state =
      match forkLoop exec (forkSubOps state) (forkMergeDelim state)
          (forkIgnoreErrors state) (forkTranches state) 0 "" 0
          (forkCounters0 state) with
      | .ok (output, progress, cs) => .ok { state with
          dish := ⟨output, forkOutputType state⟩,
          progress := state.progress + progress,
          numJumps := cs.numJumps, numRegisters := cs.numRegisters,
          forkOffset := cs.forkOffset }
      | .error (ep, cs) => .error (ep, { state with
          numJumps := cs.numJumps, numRegisters := cs.numRegisters,
          forkOffset := cs.forkOffset }) := rfl

theorem forkLoop_ignore_ok (exec : Executor) (subs : List Operation) (d : String) :
    ∀ (inputs : List String) (i : Nat) (out : String) (p : Nat) (cs : Counters),
      ∃ r, forkLoop exec subs d true inputs i out p cs = .ok r := by
  intro inputs
  induction inputs with
  | nil => intro i out p cs; exact ⟨(out, p, cs), rfl⟩
  | cons inp rest ih =>
    intro i out p cs
    cases hout : (exec subs i inp cs).outcome with
    | ok q =>
      rw [forkLoop_cons_ok rfl hout]
      exact ih _ _ _ _
    | error ep =>
      rw [forkLoop_cons_err_ignore rfl hout]
      exact ih _ _ _ _

theorem forkLoop_out_suffix (exec : Executor) (subs : List Operation) (d : String)
    (ig : Bool) :
    ∀ (inputs : List String) (i : Nat) (out : String) (p : Nat) (cs : Counters)
      (o : String) (pr : Nat) (cs' : Counters),
      forkLoop exec subs d ig inputs i out p cs = .ok (o, pr, cs') →
      o = out ∨ ∃ pre, o = pre ++ d := by
  intro inputs
  induction inputs with
  | nil =>
    intro i out p cs o pr cs' h
    simp [forkLoop] at h
    exact Or.inl h.1.symm
  | cons inp rest ih =>
    intro i out p cs o pr cs' h
    cases hout : (exec subs i inp cs).outcome with
    | ok q =>
      rw [forkLoop_cons_ok rfl hout] at h
      rcases ih _ _ _ _ o pr cs' h with h1 | h1
      · exact Or.inr ⟨out ++ (exec subs i inp cs).dishValue, h1⟩
      · exact Or.inr h1
    | error ep =>
      rcases Bool.eq_false_or_eq_true ig with hig | hig <;> subst hig
      · rw [forkLoop_cons_err_ignore rfl hout] at h
        rcases ih _ _ _ _ o pr cs' h with h1 | h1
        · exact Or.inr ⟨out ++ (exec subs i inp cs).dishValue, h1⟩
        · exact Or.inr h1
      · rw [forkLoop_cons_err_throw rfl hout] at h
        simp at h

theorem forkLoop_trailing (exec : Executor) (subs : List Operation) (d : String)
    (ig : Bool) (inputs : List String) (i : Nat) (out : String) (p : Nat)
    (cs : Counters) (o : String) (pr : Nat) (cs' : Counters)
    (hne : inputs ≠ [])
    (h : forkLoop exec subs d ig inputs i out p cs = .ok (o, pr, cs')) :
    ∃ pre, o = pre ++ d := by
  cases inputs with
  | nil => exact absurd rfl hne
  | cons inp rest =>
    cases hout : (exec subs i inp cs).outcome with
    | ok q =>
      rw [forkLoop_cons_ok rfl hout] at h
      rcases forkLoop_out_suffix exec subs d ig rest _ _ _ _ o pr cs' h with h1 | h1
      · exact ⟨out ++ (exec subs i inp cs).dishValue, h1⟩
      · exact h1
    | error ep =>
      rcases Bool.eq_false_or_eq_true ig with hig | hig <;> subst hig
      · rw [forkLoop_cons_err_ignore rfl hout] at h
        rcases forkLoop_out_suffix exec subs d true rest _ _ _ _ o pr cs' h with h1 | h1
        · exact ⟨out ++ (exec subs i inp cs).dishValue, h1⟩
        · exact h1
      · rw [forkLoop_cons_err_throw rfl hout] at h
        simp at h

theorem forkLoop_offset_le (exec : Executor) (subs : List Operation) (d : String)
    (ig : Bool)
    (hmono : ∀ (s : List Operation) (i : Nat) (inp : String) (c : Counters),
      c.forkOffset ≤ ((exec s i inp c).counters).forkOffset) :
    ∀ (inputs : List String) (i : Nat) (out : String) (p : Nat) (cs : Counters),
      (∀ o pr cs', forkLoop exec subs d ig inputs i out p cs = .ok (o, pr, cs') →
        cs.forkOffset ≤ cs'.forkOffset) ∧
      (∀ ep cs', forkLoop exec subs d ig inputs i out p cs = .error (ep, cs') →
        cs.forkOffset ≤ cs'.forkOffset) := by
  intro inputs
  induction inputs with
  | nil =>
    intro i out p cs
    constructor
    · intro o pr cs' h
      simp [forkLoop] at h
      rw [← h.2.2]
    · intro ep cs' h
      simp [forkLoop] at h
  | cons inp rest ih =>
    intro i out p cs
    constructor
    · intro o pr cs' h
      cases hout : (exec subs i inp cs).outcome with
      | ok q =>
        rw [forkLoop_cons_ok rfl hout] at h
        exact le_trans (hmono subs i inp cs) ((ih _ _ _ _).1 o pr cs' h)
      | error ep =>
        rcases Bool.eq_false_or_eq_true ig with hig | hig <;> subst hig
        · rw [forkLoop_cons_err_ignore rfl hout] at h
          exact le_trans (hmono subs i inp cs) ((ih _ _ _ _).1 o pr cs' h)
        · rw [forkLoop_cons_err_throw rfl hout] at h
          simp at h
    · intro ep cs' h
      cases hout : (exec subs i inp cs).outcome with
      | ok q =>
        rw [forkLoop_cons_ok rfl hout] at h
        exact le_trans (hmono subs i inp cs) ((ih _ _ _ _).2 ep cs' h)
      | error ep2 =>
        rcases Bool.eq_false_or_eq_true ig with hig | hig <;> subst hig
        · rw [forkLoop_cons_err_ignore rfl hout] at h
          exact le_trans (hmono subs i inp cs) ((ih _ _ _ _).2 ep cs' h)
        · rw [forkLoop_cons_err_throw rfl hout] at h
          simp at h
          rw [← h.2]
          exact hmono subs i inp cs

/-- C2: for every Fork execution, without `ignoreErrors` a failing tranche
aborts the fork immediately (the result depends only on the failing call),
the failure propagates as an error, and no output is written to the outer
dish (and the outer cursor does not move); with `ignoreErrors` the fork
always completes, a failing tranche contributes whatever the child dish
holds at failure time followed by the merge delimiter, progress accounting
resumes at the failure's reported exit progress plus one, and subsequent
tranches still execute. -/
theorem fork_error_policy :
    (∀ (exec : Executor) (state : ExecState) (ep : Nat) (st' : ExecState),
      runFork exec state = .error (ep, st') →
      st'.dish = state.dish ∧ st'.progress = state.progress) ∧
    (∀ (exec : Executor) (state : ExecState) (t : String) (rest : List String)
       (ep : Nat) (r : SubRunResult),
      forkTranches state = t :: rest →
      forkIgnoreErrors state = false →
      exec (forkSubOps state) 0 t (forkCounters0 state) = r →
      r.outcome = .error ep →
      runFork exec state = .error (ep, { state with
        numJumps := r.counters.numJumps,
        numRegisters := r.counters.numRegisters,
        forkOffset := r.counters.forkOffset })) ∧
    (∀ (exec : Executor) (state : ExecState),
      forkIgnoreErrors state = true →
      ∃ st', runFork exec state = .ok st') ∧
    (∀ (exec : Executor) (state : ExecState) (t1 t2 : String) (ep p2 : Nat)
       (r1 r2 : SubRunResult),
      forkTranches state = [t1, t2] →
      forkIgnoreErrors state = true →
      exec (forkSubOps state) 0 t1 (forkCounters0 state) = r1 →
      r1.outcome = .error ep →
      exec (forkSubOps state) 1 t2 r1.counters = r2 →
      r2.outcome = .ok p2 →
      runFork exec state = .ok { state with
        dish := ⟨r1.dishValue ++ forkMergeDelim state ++ r2.dishValue ++
          forkMergeDelim state, forkOutputType state⟩,
        progress := state.progress + p2,
        numJumps := r2.counters.numJumps,
        numRegisters := r2.counters.numRegisters,
        forkOffset := r2.counters.forkOffset }) ∧
    (∀ (exec : Executor) (state : ExecState) (t : String) (ep : Nat)
       (r : SubRunResult),
      forkTranches state = [t] →
      forkIgnoreErrors state = true →
      exec (forkSubOps state) 0 t (forkCounters0 state) = r →
      r.outcome = .error ep →
      runFork exec state = .ok { state with
        dish := ⟨r.dishValue ++ forkMergeDelim state, forkOutputType state⟩,
        progress := state.progress + (ep + 1),
        numJumps := r.counters.numJumps,
        numRegisters := r.counters.numRegisters,
        forkOffset := r.counters.forkOffset }) := by
  refine ⟨?_, ?_, ?_, ?_, ?_⟩
  · intro exec state ep st' h
    rw [runFork_eq] at h
    cases hfl : forkLoop exec (forkSubOps state) (forkMergeDelim state)
        (forkIgnoreErrors state) (forkTranches state) 0 "" 0 (forkCounters0 state) with
    | ok r =>
      obtain ⟨o, pr, cs⟩ := r
      rw [hfl] at h
      simp at h
    | error e =>
      obtain ⟨ep', cs⟩ := e
      rw [hfl] at h
      simp only [Except.error.injEq, Prod.mk.injEq] at h
      obtain ⟨hep, hst⟩ := h
      rw [← hst]
      exact ⟨rfl, rfl⟩
  · intro exec state t rest ep r hT hIE hr hout
    rw [runFork_eq, hT, hIE]
    rw [forkLoop_cons_err_throw hr hout]
  · intro exec state hIE
    rw [runFork_eq, hIE]
    obtain ⟨⟨o, pr, cs⟩, hfl⟩ := forkLoop_ignore_ok exec (forkSubOps state)
      (forkMergeDelim state) (forkTranches state) 0 "" 0 (forkCounters0 state)
    rw [hfl]
    exact ⟨_, rfl⟩
  · intro exec state t1 t2 ep p2 r1 r2 hT hIE hr1 hout1 hr2 hout2
    rw [runFork_eq, hT, hIE]
    rw [forkLoop_cons_err_ignore hr1 hout1]
    rw [forkLoop_cons_ok hr2 hout2]
    rfl
  · intro exec state t ep r hT hIE hr hout
    rw [runFork_eq, hT, hIE]
    rw [forkLoop_cons_err_ignore hr hout]
    rfl

/-- Witness for C2 on concrete forks over "a,b": a failing tranche without
`ignoreErrors` yields an error carrying the untouched dish and cursor; with
`ignoreErrors` the failing first tranche contributes its partial output
"p0" plus the delimiter, the second tranche still runs, and a failing last
tranche makes the cursor advance by its error progress plus one. -/
theorem fork_error_policy_witness :
    ((⟨0, ⟨"a,b", "string"⟩, [mkForkOp "," ";" false], 0, 0, 1⟩ : ExecState).dish =
      (forkState "a,b" false).dish ∧
     (⟨0, ⟨"a,b", "string"⟩, [mkForkOp "," ";" false], 0, 0, 1⟩ : ExecState).progress =
      (forkState "a,b" false).progress) ∧
    runFork failExec (forkState "a,b" false) = .error (3,
      ⟨0, ⟨"a,b", "string"⟩, [mkForkOp "," ";" false], 0, 0, 1⟩) ∧
    (∃ st', runFork mixedExec (forkState "a,b" true) = .ok st') ∧
    runFork mixedExec (forkState "a,b" true) = .ok
      ⟨7, ⟨"p0;b;", "string"⟩, [mkForkOp "," ";" true], 0, 0, 1⟩ ∧
    runFork mixedExec (forkState "a" true) = .ok
      ⟨3, ⟨"p0;", "string"⟩, [mkForkOp "," ";" true], 0, 0, 1⟩ := by
  refine ⟨?_, ?_, ?_, ?_, ?_⟩
  · exact fork_error_policy.1 failExec (forkState "a,b" false) 3
      ⟨0, ⟨"a,b", "string"⟩, [mkForkOp "," ";" false], 0, 0, 1⟩ (by rfl)
  · exact fork_error_policy.2.1 failExec (forkState "a,b" false) "a" ["b"] 3
      ⟨.error 3, "part", ⟨0, 0, 1⟩⟩ rfl rfl rfl rfl
  · exact fork_error_policy.2.2.1 mixedExec (forkState "a,b" true) rfl
  · exact fork_error_policy.2.2.2.1 mixedExec (forkState "a,b" true) "a" "b" 2 7
      ⟨.error 2, "p0", ⟨0, 0, 1⟩⟩ ⟨.ok 7, "b", ⟨0, 0, 1⟩⟩ rfl rfl rfl rfl rfl rfl
  · exact fork_error_policy.2.2.2.2 mixedExec (forkState "a" true) "a" 2
      ⟨.error 2, "p0", ⟨0, 0, 1⟩⟩ rfl rfl rfl rfl

/-- C6: splitting "a,b,c" on ",", running the identity sub-pipeline over
each tranche, and merging with ";" writes "a;b;c;" into the outer dish —
and in general every successful fork over at least one tranche appends each
tranche's output followed by the merge delimiter, so the merged result
carries a trailing merge delimiter. -/
theorem fork_merge_round_trip :
    runFork idExec (forkState "a,b,c" false) =
      .ok ⟨0, ⟨"a;b;c;", "string"⟩, [mkForkOp "," ";" false], 0, 0, 1⟩ ∧
    (∀ (exec : Executor) (state st' : ExecState),
      forkTranches state ≠ [] →
      runFork exec state = .ok st' →
      ∃ pre, st'.dish.value = pre ++ forkMergeDelim state) := by
  constructor
  · rfl
  · intro exec state st' hne hok
    rw [runFork_eq] at hok
    cases hfl : forkLoop exec (forkSubOps state) (forkMergeDelim state)
        (forkIgnoreErrors state) (forkTranches state) 0 "" 0 (forkCounters0 state) with
    | error e =>
      obtain ⟨ep, cs⟩ := e
      rw [hfl] at hok
      simp at hok
    | ok r =>
      obtain ⟨o, pr, cs⟩ := r
      rw [hfl] at hok
      simp only [Except.ok.injEq] at hok
      obtain ⟨pre, hpre⟩ := forkLoop_trailing exec (forkSubOps state)
        (forkMergeDelim state) (forkIgnoreErrors state) (forkTranches state)
        0 "" 0 (forkCounters0 state) o pr cs hne hfl
      refine ⟨pre, ?_⟩
      rw [← hok]
      exact hpre

/-- Witness for C6: the round-trip output "a;b;c;" indeed ends with the
merge delimiter ";". -/
theorem fork_merge_round_trip_witness :
    ∃ pre, (⟨0, ⟨"a;b;c;", "string"⟩, [mkForkOp "," ";" false], 0, 0, 1⟩ :
      ExecState).dish.value = pre ++ forkMergeDelim (forkState "a,b,c" false) :=
  fork_merge_round_trip.2 idExec (forkState "a,b,c" false)
    ⟨0, ⟨"a;b;c;", "string"⟩, [mkForkOp "," ";" false], 0, 0, 1⟩ (by decide)
    fork_merge_round_trip.1

/-- C9: every invocation of Fork hands the tranche loop counters whose fork
offset is already incremented by `cursor + 1`; for an executor that never
decreases the fork offset, the increment persists in the final state on the
success path and on the error path alike, and a fork over zero tranches
(empty input) still returns with the fork offset incremented. -/
theorem fork_offset_increment_persists :
    ∀ (exec : Executor) (state : ExecState),
      (∀ (subs : List Operation) (i : Nat) (inp : String) (c : Counters),
        c.forkOffset ≤ ((exec subs i inp c).counters).forkOffset) →
      ((∀ st', runFork exec state = .ok st' →
          state.forkOffset + state.progress + 1 ≤ st'.forkOffset) ∧
       (∀ ep st', runFork exec state = .error (ep, st') →
          state.forkOffset + state.progress + 1 ≤ st'.forkOffset) ∧
       (state.dish.value = "" →
        runFork exec state = .ok { state with
          dish := ⟨"", forkOutputType state⟩,
          forkOffset := state.forkOffset + state.progress + 1 }) ∧
       forkCounters0 state = ⟨state.numJumps, state.numRegisters,
          state.forkOffset + state.progress + 1⟩) := by
  intro exec state hmono
  refine ⟨?_, ?_, ?_, rfl⟩
  · intro st' h
    rw [runFork_eq] at h
    cases hfl : forkLoop exec (forkSubOps state) (forkMergeDelim state)
        (forkIgnoreErrors state) (forkTranches state) 0 "" 0 (forkCounters0 state) with
    | error e =>
      obtain ⟨ep, cs⟩ := e
      rw [hfl] at h
      simp at h
    | ok r =>
      obtain ⟨o, pr, cs⟩ := r
      rw [hfl] at h
      simp only [Except.ok.injEq] at h
      have hle := (forkLoop_offset_le exec (forkSubOps state) (forkMergeDelim state)
        (forkIgnoreErrors state) hmono (forkTranches state) 0 "" 0
        (forkCounters0 state)).1 o pr cs hfl
      rw [← h]
      exact hle
  · intro ep st' h
    rw [runFork_eq] at h
    cases hfl : forkLoop exec (forkSubOps state) (forkMergeDelim state)
        (forkIgnoreErrors state) (forkTranches state) 0 "" 0 (forkCounters0 state) with
    | ok r =>
      obtain ⟨o, pr, cs⟩ := r
      rw [hfl] at h
      simp at h
    | error e =>
      obtain ⟨ep', cs⟩ := e
      rw [hfl] at h
      simp only [Except.error.injEq, Prod.mk.injEq] at h
      have hle := (forkLoop_offset_le exec (forkSubOps state) (forkMergeDelim state)
        (forkIgnoreErrors state) hmono (forkTranches state) 0 "" 0
        (forkCounters0 state)).2 ep' cs hfl
      rw [← h.2]
      exact hle
  · intro hdish
    have hT : forkTranches state = [] := by simp [forkTranches, hdish]
    rw [runFork_eq, hT]
    rfl

/-- Witness for C9: the identity executor preserves the counters, and a
fork at cursor 0 over an empty input returns with fork offset 0 + 0 + 1. -/
theorem fork_offset_increment_persists_witness :
    runFork idExec (forkState "" false) = .ok { forkState "" false with
      dish := ⟨"", forkOutputType (forkState "" false)⟩, forkOffset := 1 } :=
  (fork_offset_increment_persists idExec (forkState "" false)
    (fun _ _ _ _ => le_refl _)).2.2.1 rfl

/-- C10: when the dish's textual projection is empty, Fork executes zero
tranches (for any executor), still writes the empty string into the outer
dish under the fork's declared output type, and advances the outer cursor
by zero — the recorded tranche exit progress stays at its initial value 0;
only the fork offset changes. -/
theorem fork_empty_input :
    ∀ (exec : Executor) (state : ExecState),
      state.dish.value = "" →
      runFork exec state = .ok { state with
        dish := ⟨"", forkOutputType state⟩,
        forkOffset := state.forkOffset + state.progress + 1 } := by
  intro exec state hdish
  have hT : forkTranches state = [] := by simp [forkTranches, hdish]
  rw [runFork_eq, hT]
  rfl

/-- Witness for C10: an always-failing executor over an empty input still
produces the empty output, an unmoved cursor, and a bumped fork offset. -/
theorem fork_empty_input_witness :
    runFork failExec (forkState "" false) =
      .ok ⟨0, ⟨"", "string"⟩, [mkForkOp "," ";" false], 0, 0, 1⟩ :=
  fork_empty_input failExec (forkState "" false) rfl
